import Mathlib

/-!
Verification of the VolSpike realtime Open Interest poller
(`oi_realtime_poller.py`): interval scheduler, OI history store,
baseline resolver, multi-timeframe alert evaluator, cooldown
persistence, and the main-loop per-symbol processing pipeline.

Real-valued quantities (open interest, timestamps, percentages) are
modelled as rationals; integer quantities as `Int`/`Nat`.  Python
dictionaries are modelled as total functions with pointwise update
(defaulting views are made explicit), the on-disk JSON cooldown file as
an association list with `List Char` keys, and fallible file access as
`Except`.
-/

namespace OIPoller

/-- Hysteresis state per (symbol, timeframe): `"INSIDE"` or `"OUTSIDE"`
in the Python source. -/
inductive AlertState where
  | INSIDE
  | OUTSIDE
deriving DecidableEq, Repr

/-- One OI history sample `(timestamp_epoch, oi_contracts, mark_price)`
as stored in the `oi_history` ring buffers. -/
structure Sample where
  ts : ℚ
  oi : ℚ
  markPrice : ℚ
deriving DecidableEq, Repr

/-- The `oi_history` dictionary: symbol → buffer (absent key = `none`). -/
abbrev Store := String → Option (List Sample)

/-- Pointwise update of a function, modelling `d[k] = v` on a dict. -/
def updFn {α β : Type} [DecidableEq α] (f : α → β) (a : α) (b : β) : α → β :=
  fun x => if x = a then b else f x

/-- Python `round` with one argument: round half to even, on rationals. -/
def pyRound (q : ℚ) : ℤ :=
  let f : ℤ := ⌊q⌋
  if q - f < 1/2 then f
  else if 1/2 < q - f then f + 1
  else if f % 2 = 0 then f else f + 1

/-- `compute_polling_interval`, parameterised by the configuration
constants `MAX_REQ_PER_MIN`, `MIN_INTERVAL_SEC`, `MAX_INTERVAL_SEC`. -/
def compute_polling_interval (maxReq minI maxI : ℤ) (universe_size : ℤ) : ℤ :=
  if universe_size ≤ 0 then maxI
  else
    let polls_per_min_per_symbol : ℚ := (maxReq : ℚ) / (universe_size : ℚ)
    let raw_interval : ℚ := 60 / polls_per_min_per_symbol
    min maxI (max minI (pyRound raw_interval))

/-! ### Baseline resolver: `get_oi_at_lookback` -/

/-- Dynamic tolerance: `min(120, max(30, lookback_sec // 10))` seconds
(Python floor division). -/
def oiTolerance (lookback_sec : ℤ) : ℤ :=
  min 120 (max 30 (Int.fdiv lookback_sec 10))

/-- One step of the closest-sample scan in `get_oi_at_lookback`: the
accumulator is the current `closest_sample` together with `min_diff`
(`none` encodes `min_diff = inf`). -/
def scanStep (target tolerance : ℚ) (acc : Option (Sample × ℚ)) (s : Sample) :
    Option (Sample × ℚ) :=
  let diff := |s.ts - target|
  match acc with
  | none => if diff ≤ tolerance then some (s, diff) else none
  | some (c, md) => if diff < md ∧ diff ≤ tolerance then some (s, diff) else some (c, md)

/-- `get_oi_at_lookback(symbol, now, lookback_sec)`: closest sample to
`now - lookback_sec` within the dynamic tolerance, or `none` when the
symbol is unknown or has fewer than 2 samples. -/
def get_oi_at_lookback (store : Store) (symbol : String) (now : ℚ)
    (lookback_sec : ℤ) : Option (ℚ × ℚ) :=
  match store symbol with
  | none => none
  | some buf =>
    if buf.length < 2 then none
    else
      let target := now - (lookback_sec : ℚ)
      let tolerance : ℚ := ((oiTolerance lookback_sec : ℤ) : ℚ)
      (buf.foldl (scanStep target tolerance) none).map fun p => (p.1.oi, p.1.markPrice)

/-! ### Multi-timeframe alert evaluator: `maybe_emit_oi_alert` -/

/-- A timeframe policy from `OI_ALERT_TIMEFRAMES`:
`{label, threshold_pct, lookback_sec, cooldown_sec}`. -/
structure TFPolicy where
  label : String
  threshold_pct : ℚ
  lookback_sec : ℤ
  cooldown_sec : ℚ
deriving DecidableEq, Repr

/-- The payload of one emitted OI alert (the fields posted by
`emit_oi_alert`; the optional funding rate is external enrichment and
omitted). -/
structure Alert where
  symbol : String
  direction : String
  baseline : ℚ
  current : ℚ
  pct_change : ℚ
  abs_change : ℚ
  timestamp : ℚ
  price_change : Option ℚ
  timeframe : String
deriving DecidableEq, Repr

/-- The evaluator's mutable state: the `oi_alert_state` dict (read with
default `INSIDE` via `.get`) and the `last_oi_alert_at` dict (absent key
= `none`). -/
structure EvalState where
  alertState : String × String → AlertState
  lastAlertAt : String × String × String → Option ℚ

/-- Default minimum absolute OI change, `OI_MIN_DELTA_CONTRACTS`. -/
def OI_MIN_DELTA_CONTRACTS : ℚ := 5000

/-- The default `OI_ALERT_TIMEFRAMES` configuration. -/
def OI_ALERT_TIMEFRAMES : List TFPolicy :=
  [⟨"5 min", 3/100, 300, 600⟩, ⟨"15 min", 7/100, 900, 900⟩, ⟨"1 hour", 12/100, 3600, 3600⟩]

/-- The cooldown gate: `cooldown_key in last_oi_alert_at` and
`timestamp - last_oi_alert_at[cooldown_key] < tf_cooldown`. -/
def cooldownActive (st : EvalState) (key : String × String × String)
    (timestamp cooldown : ℚ) : Bool :=
  match st.lastAlertAt key with
  | some last => decide (timestamp - last < cooldown)
  | none => false

/-- Successful emission: post the alert, record the cooldown timestamp,
and promote the hysteresis state to `OUTSIDE`. -/
def emitAlert (st : EvalState) (symbol dir : String) (tf : TFPolicy)
    (oi_baseline current_oi pct_change abs_change timestamp : ℚ)
    (price_change : Option ℚ) : EvalState × Option Alert :=
  ({ alertState := updFn st.alertState (symbol, tf.label) AlertState.OUTSIDE,
     lastAlertAt := updFn st.lastAlertAt (symbol, dir, tf.label) (some timestamp) },
   some ⟨symbol, dir, oi_baseline, current_oi, pct_change, abs_change, timestamp,
         price_change, tf.label⟩)

/-- The body of `maybe_emit_oi_alert`'s per-timeframe loop (one `tf` of
`OI_ALERT_TIMEFRAMES`): baseline lookup, zero-baseline guard,
percentage/absolute change, hysteresis, direction, minimum-delta and
cooldown gates. -/
def evalTF (min_delta : ℚ) (store : Store) (symbol : String)
    (current_oi current_mark_price timestamp : ℚ) (st : EvalState) (tf : TFPolicy) :
    EvalState × Option Alert :=
  match get_oi_at_lookback store symbol timestamp tf.lookback_sec with
  | none =>
    ({ st with alertState := updFn st.alertState (symbol, tf.label) AlertState.INSIDE }, none)
  | some (oi_baseline, mark_price_baseline) =>
    if oi_baseline = 0 then
      ({ st with alertState := updFn st.alertState (symbol, tf.label) AlertState.INSIDE }, none)
    else
      let pct_change := (current_oi - oi_baseline) / oi_baseline
      let abs_change := current_oi - oi_baseline
      let price_change : Option ℚ :=
        if 0 < mark_price_baseline ∧ 0 < current_mark_price then
          some ((current_mark_price - mark_price_baseline) / mark_price_baseline)
        else none
      if tf.threshold_pct ≤ |pct_change| ∧
          st.alertState (symbol, tf.label) = AlertState.INSIDE then
        if tf.threshold_pct ≤ pct_change ∧ min_delta ≤ abs_change then
          if cooldownActive st (symbol, "UP", tf.label) timestamp tf.cooldown_sec then
            (st, none)
          else
            emitAlert st symbol "UP" tf oi_baseline current_oi pct_change abs_change
              timestamp price_change
        else if pct_change ≤ -tf.threshold_pct ∧ abs_change ≤ -min_delta then
          if cooldownActive st (symbol, "DOWN", tf.label) timestamp tf.cooldown_sec then
            (st, none)
          else
            emitAlert st symbol "DOWN" tf oi_baseline current_oi pct_change abs_change
              timestamp price_change
        else (st, none)
      else if ¬ tf.threshold_pct ≤ |pct_change| then
        ({ st with alertState := updFn st.alertState (symbol, tf.label) AlertState.INSIDE }, none)
      else (st, none)

/-- `maybe_emit_oi_alert`: skip the stablecoin pair, then evaluate every
configured timeframe independently, threading the evaluator state. -/
def maybe_emit_oi_alert (min_delta : ℚ) (tfs : List TFPolicy) (store : Store)
    (symbol : String) (current_oi current_mark_price timestamp : ℚ)
    (st : EvalState) : EvalState × List Alert :=
  if symbol = "USDCUSDT" then (st, [])
  else
    tfs.foldl
      (fun acc tf =>
        let r := evalTF min_delta store symbol current_oi current_mark_price timestamp acc.1 tf
        (r.1, acc.2 ++ r.2.toList))
      (st, [])

/-- Concrete history store used by the witnesses: one symbol with two
samples of 100000 contracts at epoch 0 and 150. -/
def testStore : Store := fun s =>
  if s = "BTCUSDT" then some [⟨0, 100000, 1⟩, ⟨150, 100000, 1⟩] else none

/-- Concrete history store whose baseline sample carries zero OI. -/
def testStoreZero : Store := fun s =>
  if s = "AAAUSDT" then some [⟨0, 0, 1⟩, ⟨150, 5, 1⟩] else none

/-- The 5-minute timeframe policy (3 % threshold, 300 s lookback, 600 s
cooldown). -/
def testTF : TFPolicy := ⟨"5 min", 3/100, 300, 600⟩

/-- Fresh evaluator state: everything `INSIDE`, no cooldowns recorded. -/
def testStateEmpty : EvalState := ⟨fun _ => AlertState.INSIDE, fun _ => none⟩

/-- Evaluator state with an `UP` alert for BTCUSDT/5 min recorded at
epoch 0. -/
def testStateUP : EvalState :=
  ⟨fun _ => AlertState.INSIDE,
   fun k => if k = ("BTCUSDT", "UP", "5 min") then some 0 else none⟩

/-- Evaluator state latched `OUTSIDE` with no cooldowns recorded. -/
def testStateOutside : EvalState := ⟨fun _ => AlertState.OUTSIDE, fun _ => none⟩

/-! ### Cooldown persistence: `load_cooldown_state` / `save_cooldown_state` -/

/-- A cooldown key `(symbol, direction, timeframe)`, with the string
components modelled as character lists for the serialisation layer. -/
abbrev CKey := List Char × List Char × List Char

/-- Serialise a key as `f"{symbol}|{direction}|{timeframe}"`. -/
def joinCooldownKey (k : CKey) : List Char :=
  k.1 ++ '|' :: (k.2.1 ++ '|' :: k.2.2)

/-- Python `key_str.split('|')` (no maxsplit; keeps empty fields;
yields `[""]` on the empty string). -/
def splitOnPipe : List Char → List (List Char)
  | [] => [[]]
  | c :: rest =>
    if c = '|' then [] :: splitOnPipe rest
    else
      match splitOnPipe rest with
      | [] => [[c]]
      | h :: t => (c :: h) :: t

/-- `save_cooldown_state(cooldowns)`: serialise the keys, keeping only
entries with `now - timestamp <= 3600` (the max cooldown period). -/
def save_cooldown_state (now : ℚ) (cooldowns : List (CKey × ℚ)) :
    List (List Char × ℚ) :=
  cooldowns.filterMap fun p =>
    if now - p.2 ≤ 3600 then some (joinCooldownKey p.1, p.2) else none

/-- `load_cooldown_state()`: `Except.error` models a missing, unreadable
or unparseable state file (the `except` path returns `{}`); otherwise
entries older than the max cooldown are skipped and keys that do not
split into exactly three fields are dropped. -/
def load_cooldown_state (now : ℚ) (file : Except Unit (List (List Char × ℚ))) :
    List (CKey × ℚ) :=
  match file with
  | Except.error _ => []
  | Except.ok raw =>
    raw.filterMap fun p =>
      if 3600 < now - p.2 then none
      else
        match splitOnPipe p.1 with
        | [a, b, c] => some ((a, b, c), p.2)
        | _ => none

/-- A cooldown key none of whose components contains the `'|'`
delimiter. -/
def keyNoPipe (k : CKey) : Prop :=
  '|' ∉ k.1 ∧ '|' ∉ k.2.1 ∧ '|' ∉ k.2.2

/-! ### OI history store: `initialize_oi_history` and the main loop -/

/-- Ring-buffer capacity: `int(3 * 3600 / 10)` samples. -/
def OI_HISTORY_MAXLEN : ℕ := 3 * 3600 / 10

/-- `initialize_oi_history(symbols)`: create an empty buffer for each
symbol not already present; existing buffers are left untouched. -/
def initialize_oi_history (symbols : List String) (store : Store) : Store :=
  symbols.foldl
    (fun st sym =>
      match st sym with
      | none => updFn st sym (some [])
      | some _ => st)
    store

/-- One outbound batch record `{symbol, openInterest, openInterestUsd,
markPrice}`. -/
structure BatchSample where
  symbol : String
  openInterest : ℚ
  openInterestUsd : ℚ
  markPrice : ℚ
deriving DecidableEq, Repr

/-- `deque.append` with a maximum length: push right, evict from the
left once capacity is exceeded. -/
def append_sample (maxlen : ℕ) (buf : List Sample) (s : Sample) : List Sample :=
  let b := buf ++ [s]
  if maxlen < b.length then b.drop (b.length - maxlen) else b

/-- The state the main loop threads through one symbol's result:
history store, evaluator state, alerts emitted, and the outbound batch. -/
structure ProcResult where
  store : Store
  est : EvalState
  alerts : List Alert
  batch : List BatchSample

/-- The per-symbol result handling in `main_loop`: a missing fetch
result or `oi <= 0` is discarded; otherwise the sample is appended to
history, the evaluator runs on the updated store, and a batch record is
accumulated (zero-filled price fields when the mark price is not
positive).  A missing history buffer raises `KeyError`, caught by the
loop's per-symbol handler (modelled as a discard). -/
def process_fetch_result (min_delta : ℚ) (tfs : List TFPolicy) (maxlen : ℕ)
    (store : Store) (est : EvalState) (batch : List BatchSample)
    (symbol : String) (result : Option (ℚ × ℚ)) (timestamp : ℚ) : ProcResult :=
  match result with
  | none => ⟨store, est, [], batch⟩
  | some (oi, mark_price) =>
    if oi ≤ 0 then ⟨store, est, [], batch⟩
    else
      match store symbol with
      | none => ⟨store, est, [], batch⟩
      | some buf =>
        let store2 :=
          updFn store symbol (some (append_sample maxlen buf ⟨timestamp, oi, mark_price⟩))
        let r := maybe_emit_oi_alert min_delta tfs store2 symbol oi mark_price timestamp est
        let sample : BatchSample :=
          if 0 < mark_price then ⟨symbol, oi, oi * mark_price, mark_price⟩
          else ⟨symbol, oi, 0, 0⟩
        ⟨store2, r.1, r.2, batch ++ [sample]⟩

@[simp] theorem updFn_same {α β : Type} [DecidableEq α] (f : α → β) (a : α) (b : β) :
    updFn f a b a = b := by
  simp [updFn]

theorem updFn_other {α β : Type} [DecidableEq α] (f : α → β) (a x : α) (b : β)
    (h : x ≠ a) : updFn f a b x = f x := by
  simp [updFn, h]

/-- C6: `computeInterval` returns `maxIntervalSec` for every
`universeSize ≤ 0`; for `universeSize > 0` (with `minI ≤ maxI`) it
returns `round(60 * universeSize / maxReq)` clamped to `[minI, maxI]`,
so the result lies within those bounds. -/
theorem compute_polling_interval_spec (maxReq minI maxI u : ℤ) (hle : minI ≤ maxI) :
    (u ≤ 0 → compute_polling_interval maxReq minI maxI u = maxI) ∧
    (0 < u →
      compute_polling_interval maxReq minI maxI u
          = min maxI (max minI (pyRound (60 * (u : ℚ) / (maxReq : ℚ)))) ∧
      minI ≤ compute_polling_interval maxReq minI maxI u ∧
      compute_polling_interval maxReq minI maxI u ≤ maxI) := by
  constructor
  · intro h
    simp [compute_polling_interval, h]
  · intro h
    have hne : ¬ u ≤ 0 := not_le.mpr h
    have hform : (60 : ℚ) / ((maxReq : ℚ) / (u : ℚ)) = 60 * (u : ℚ) / (maxReq : ℚ) := by
      rw [div_div_eq_mul_div]
    refine ⟨?_, ?_, ?_⟩
    · simp only [compute_polling_interval, if_neg hne]
      rw [hform]
    · simp only [compute_polling_interval, if_neg hne]
      exact le_min hle (le_max_left _ _)
    · simp only [compute_polling_interval, if_neg hne]
      exact min_le_left _ _

/-- Witness for `compute_polling_interval_spec` at the default
configuration (2000 req/min, 5–20 s bounds) and a 341-symbol universe. -/
theorem compute_polling_interval_spec_witness :
    compute_polling_interval 2000 5 20 341
        = min 20 (max 5 (pyRound (60 * (341 : ℚ) / (2000 : ℚ)))) :=
  ((compute_polling_interval_spec 2000 5 20 341 (by decide)).2 (by decide)).1

theorem oiTolerance_ge (lookback_sec : ℤ) : 30 ≤ oiTolerance lookback_sec :=
  le_min (by norm_num) (le_max_left _ _)

theorem foldl_scanStep_some (target tol : ℚ) :
    ∀ (l : List Sample) (c0 : Sample) (md0 : ℚ),
      md0 = |c0.ts - target| → md0 ≤ tol →
      ∃ c md, l.foldl (scanStep target tol) (some (c0, md0)) = some (c, md) ∧
        md = |c.ts - target| ∧ md ≤ tol ∧ md ≤ md0 ∧
        (∀ s ∈ l, |s.ts - target| ≤ tol → md ≤ |s.ts - target|) ∧
        ((c = c0 ∧ md = md0) ∨
          ∃ l1 l2, l = l1 ++ c :: l2 ∧ md < md0 ∧ ∀ s ∈ l1, md < |s.ts - target|) := by
  intro l
  induction l with
  | nil =>
    intro c0 md0 h0 h0t
    exact ⟨c0, md0, rfl, h0, h0t, le_refl _, by simp, Or.inl ⟨rfl, rfl⟩⟩
  | cons s l ih =>
    intro c0 md0 h0 h0t
    rw [List.foldl_cons]
    by_cases h : |s.ts - target| < md0 ∧ |s.ts - target| ≤ tol
    · rw [show scanStep target tol (some (c0, md0)) s = some (s, |s.ts - target|) by
        simp [scanStep, h]]
      obtain ⟨c, md, heq, hmd, htol, hle, hall, hpos⟩ := ih s (|s.ts - target|) rfl h.2
      refine ⟨c, md, heq, hmd, htol, le_of_lt (lt_of_le_of_lt hle h.1), ?_, ?_⟩
      · intro x hx hxt
        rcases List.mem_cons.mp hx with rfl | hx2
        · exact hle
        · exact hall x hx2 hxt
      · rcases hpos with ⟨rfl, rfl⟩ | ⟨l1, l2, hl, hlt, hl1⟩
        · exact Or.inr ⟨[], l, by simp, h.1, by simp⟩
        · refine Or.inr ⟨s :: l1, l2, by rw [hl, List.cons_append], lt_trans hlt h.1, ?_⟩
          intro x hx
          rcases List.mem_cons.mp hx with rfl | hx2
          · exact hlt
          · exact hl1 x hx2
    · rw [show scanStep target tol (some (c0, md0)) s = some (c0, md0) by
        simp only [scanStep]
        rw [if_neg h]]
      obtain ⟨c, md, heq, hmd, htol, hle, hall, hpos⟩ := ih c0 md0 h0 h0t
      have hskip : |s.ts - target| ≤ tol → md0 ≤ |s.ts - target| := by
        intro hxt
        by_contra hcon
        exact h ⟨not_le.mp hcon, hxt⟩
      refine ⟨c, md, heq, hmd, htol, hle, ?_, ?_⟩
      · intro x hx hxt
        rcases List.mem_cons.mp hx with rfl | hx2
        · exact le_trans hle (hskip hxt)
        · exact hall x hx2 hxt
      · rcases hpos with ⟨rfl, rfl⟩ | ⟨l1, l2, hl, hlt, hl1⟩
        · exact Or.inl ⟨rfl, rfl⟩
        · refine Or.inr ⟨s :: l1, l2, by rw [hl, List.cons_append], hlt, ?_⟩
          intro x hx
          rcases List.mem_cons.mp hx with rfl | hx2
          · by_cases hxt : |x.ts - target| ≤ tol
            · exact lt_of_lt_of_le hlt (hskip hxt)
            · exact lt_of_le_of_lt htol (not_le.mp hxt)
          · exact hl1 x hx2

theorem foldl_scanStep_none_iff (target tol : ℚ) :
    ∀ l : List Sample,
      l.foldl (scanStep target tol) none = none ↔ ∀ s ∈ l, tol < |s.ts - target| := by
  intro l
  induction l with
  | nil => simp
  | cons s l ih =>
    rw [List.foldl_cons]
    by_cases h : |s.ts - target| ≤ tol
    · rw [show scanStep target tol none s = some (s, |s.ts - target|) by
        simp [scanStep, h]]
      obtain ⟨c, md, heq, _⟩ := foldl_scanStep_some target tol l s (|s.ts - target|) rfl h
      rw [heq]
      constructor
      · intro hcon
        exact absurd hcon (by simp)
      · intro hall
        exact absurd (hall s (by simp)) (not_lt.mpr h)
    · rw [show scanStep target tol none s = none by
        simp only [scanStep]
        rw [if_neg h]]
      rw [ih]
      constructor
      · intro hall x hx
        rcases List.mem_cons.mp hx with rfl | hx2
        · exact not_le.mp h
        · exact hall x hx2
      · intro hall x hx
        exact hall x (List.mem_cons_of_mem _ hx)

theorem foldl_scanStep_none_some (target tol : ℚ) :
    ∀ (l : List Sample) (c : Sample) (md : ℚ),
      l.foldl (scanStep target tol) none = some (c, md) →
      ∃ l1 l2, l = l1 ++ c :: l2 ∧ md = |c.ts - target| ∧ md ≤ tol ∧
        (∀ s ∈ l, |s.ts - target| ≤ tol → md ≤ |s.ts - target|) ∧
        (∀ s ∈ l1, md < |s.ts - target|) := by
  intro l
  induction l with
  | nil =>
    intro c md h
    exact absurd h (by simp)
  | cons s l ih =>
    intro c md h
    rw [List.foldl_cons] at h
    by_cases hs : |s.ts - target| ≤ tol
    · rw [show scanStep target tol none s = some (s, |s.ts - target|) by
        simp [scanStep, hs]] at h
      obtain ⟨c2, md2, heq, hmd, htol, hle, hall, hpos⟩ :=
        foldl_scanStep_some target tol l s (|s.ts - target|) rfl hs
      rw [heq] at h
      obtain ⟨hc, hm⟩ : c2 = c ∧ md2 = md := by
        have := Option.some.inj h
        exact ⟨congrArg Prod.fst this, congrArg Prod.snd this⟩
      subst hc; subst hm
      rcases hpos with ⟨rfl, rfl⟩ | ⟨l1, l2, hl, hlt, hl1⟩
      · refine ⟨[], l, by simp, hmd, htol, ?_, by simp⟩
        intro x hx hxt
        rcases List.mem_cons.mp hx with rfl | hx2
        · exact le_refl _
        · exact hall x hx2 hxt
      · refine ⟨s :: l1, l2, by rw [hl, List.cons_append], hmd, htol, ?_, ?_⟩
        · intro x hx hxt
          rcases List.mem_cons.mp hx with rfl | hx2
          · exact hle
          · exact hall x hx2 hxt
        · intro x hx
          rcases List.mem_cons.mp hx with rfl | hx2
          · exact hlt
          · exact hl1 x hx2
    · rw [show scanStep target tol none s = none by
        simp only [scanStep]
        rw [if_neg hs]] at h
      obtain ⟨l1, l2, hl, hmd, htol, hall, hl1⟩ := ih c md h
      refine ⟨s :: l1, l2, by rw [hl, List.cons_append], hmd, htol, ?_, ?_⟩
      · intro x hx hxt
        rcases List.mem_cons.mp hx with rfl | hx2
        · exact absurd hxt hs
        · exact hall x hx2 hxt
      · intro x hx
        rcases List.mem_cons.mp hx with rfl | hx2
        · exact lt_of_le_of_lt htol (not_le.mp hs)
        · exact hl1 x hx2

/-- C4: `findBaseline` returns absent when the buffer has fewer than 2
samples or no sample lies within `tolerance = clamp(lookbackSec/10, 30,
120)` of `target = now - lookbackSec`; otherwise it returns the sample
closest to the target among those within tolerance, the first found
winning exact ties.  A sample exactly at the target is found whenever at
least two samples exist (and some sample within tolerance exists), and a
sample farther than the tolerance is never returned. -/
theorem get_oi_at_lookback_spec (store : Store) (symbol : String) (now : ℚ)
    (lookback_sec : ℤ) :
    (store symbol = none → get_oi_at_lookback store symbol now lookback_sec = none) ∧
    (∀ buf, store symbol = some buf → buf.length < 2 →
      get_oi_at_lookback store symbol now lookback_sec = none) ∧
    (∀ buf, store symbol = some buf →
      (∀ s ∈ buf, ((oiTolerance lookback_sec : ℤ) : ℚ) < |s.ts - (now - (lookback_sec : ℚ))|) →
      get_oi_at_lookback store symbol now lookback_sec = none) ∧
    (∀ buf v, store symbol = some buf →
      get_oi_at_lookback store symbol now lookback_sec = some v →
      ∃ l1 c l2, buf = l1 ++ c :: l2 ∧ v = (c.oi, c.markPrice) ∧
        |c.ts - (now - (lookback_sec : ℚ))| ≤ ((oiTolerance lookback_sec : ℤ) : ℚ) ∧
        (∀ s ∈ buf, |s.ts - (now - (lookback_sec : ℚ))| ≤ ((oiTolerance lookback_sec : ℤ) : ℚ) →
          |c.ts - (now - (lookback_sec : ℚ))| ≤ |s.ts - (now - (lookback_sec : ℚ))|) ∧
        (∀ s ∈ l1, |c.ts - (now - (lookback_sec : ℚ))| < |s.ts - (now - (lookback_sec : ℚ))|)) ∧
    (∀ buf, store symbol = some buf → 2 ≤ buf.length →
      (∃ s ∈ buf, s.ts = now - (lookback_sec : ℚ)) →
      (get_oi_at_lookback store symbol now lookback_sec).isSome) := by
  set target := now - (lookback_sec : ℚ) with htarget
  set tol := ((oiTolerance lookback_sec : ℤ) : ℚ) with htol
  refine ⟨?_, ?_, ?_, ?_, ?_⟩
  · intro h
    simp [get_oi_at_lookback, h]
  · intro buf hbuf hlen
    simp [get_oi_at_lookback, hbuf, hlen]
  · intro buf hbuf hfar
    by_cases hlen : buf.length < 2
    · simp [get_oi_at_lookback, hbuf, hlen]
    · simp only [get_oi_at_lookback, hbuf, if_neg hlen]
      rw [(foldl_scanStep_none_iff target tol buf).mpr hfar]
      rfl
  · intro buf v hbuf hv
    simp only [get_oi_at_lookback, hbuf] at hv
    by_cases hlen : buf.length < 2
    · rw [if_pos hlen] at hv
      exact absurd hv (by simp)
    · rw [if_neg hlen] at hv
      obtain ⟨p, hp, hpv⟩ := Option.map_eq_some'.mp hv
      obtain ⟨l1, l2, hl, hmd, hmtol, hall, hl1⟩ :=
        foldl_scanStep_none_some target tol buf p.1 p.2 (by rw [← hp])
      refine ⟨l1, p.1, l2, hl, hpv.symm, ?_, ?_, ?_⟩
      · rw [← hmd]; exact hmtol
      · intro s hs hst
        rw [← hmd]
        exact hall s hs hst
      · intro s hs
        rw [← hmd]
        exact hl1 s hs
  · intro buf hbuf hlen ⟨s, hs, hts⟩
    have hlen2 : ¬ buf.length < 2 := not_lt.mpr hlen
    simp only [get_oi_at_lookback, hbuf, if_neg hlen2]
    rcases hfold : buf.foldl (scanStep target tol) none with _ | p
    · exfalso
      have := (foldl_scanStep_none_iff target tol buf).mp hfold s hs
      rw [hts] at this
      simp only [sub_self, abs_zero] at this
      have h30 : (30 : ℚ) ≤ tol := by
        rw [htol]
        exact_mod_cast oiTolerance_ge lookback_sec
      linarith
    · rfl

/-- C1: from state `INSIDE`, a qualifying threshold crossing for
`(symbol, direction, timeframe)` with recorded last-alert time `T`
emits nothing and leaves the alert state `INSIDE` when
`t - T < cooldownSeconds`, and emits an alert and records `t` as the
new last-alert time when `t - T ≥ cooldownSeconds`. -/
theorem evalTF_cooldown_gate (min_delta : ℚ) (store : Store) (symbol : String)
    (cur mark t : ℚ) (st : EvalState) (tf : TFPolicy) (b mpb T : ℚ) (d : String)
    (hb : get_oi_at_lookback store symbol t tf.lookback_sec = some (b, mpb))
    (hb0 : b ≠ 0)
    (hprev : st.alertState (symbol, tf.label) = AlertState.INSIDE)
    (hT : st.lastAlertAt (symbol, d, tf.label) = some T)
    (hqual :
      (d = "UP" ∧ tf.threshold_pct ≤ (cur - b) / b ∧ min_delta ≤ cur - b) ∨
      (d = "DOWN" ∧ ¬(tf.threshold_pct ≤ (cur - b) / b ∧ min_delta ≤ cur - b) ∧
        (cur - b) / b ≤ -tf.threshold_pct ∧ cur - b ≤ -min_delta)) :
    (t - T < tf.cooldown_sec →
      (evalTF min_delta store symbol cur mark t st tf).2 = none ∧
      (evalTF min_delta store symbol cur mark t st tf).1 = st ∧
      (evalTF min_delta store symbol cur mark t st tf).1.alertState (symbol, tf.label)
        = AlertState.INSIDE) ∧
    (tf.cooldown_sec ≤ t - T →
      (∃ a, (evalTF min_delta store symbol cur mark t st tf).2 = some a ∧
        a.direction = d ∧ a.timestamp = t) ∧
      (evalTF min_delta store symbol cur mark t st tf).1.lastAlertAt (symbol, d, tf.label)
        = some t) := by
  rcases hqual with ⟨hd, hq1, hq2⟩ | ⟨hd, hnup, hq1, hq2⟩
  · subst hd
    have habs : tf.threshold_pct ≤ |(cur - b) / b| := le_trans hq1 (le_abs_self _)
    constructor
    · intro hlt
      have hcool : cooldownActive st (symbol, "UP", tf.label) t tf.cooldown_sec = true := by
        simp [cooldownActive, hT, hlt]
      have heval : evalTF min_delta store symbol cur mark t st tf = (st, none) := by
        simp only [evalTF, hb]
        simp [hb0, habs, hprev, hq1, hq2, hcool]
      rw [heval]
      exact ⟨rfl, rfl, hprev⟩
    · intro hle
      have hcool : cooldownActive st (symbol, "UP", tf.label) t tf.cooldown_sec = false := by
        simp only [cooldownActive, hT]
        exact decide_eq_false (not_lt.mpr hle)
      have heval : evalTF min_delta store symbol cur mark t st tf
          = emitAlert st symbol "UP" tf b cur ((cur - b) / b) (cur - b) t
              (if 0 < mpb ∧ 0 < mark then some ((mark - mpb) / mpb) else none) := by
        simp only [evalTF, hb]
        simp [hb0, habs, hprev, hq1, hq2, hcool]
      rw [heval]
      exact ⟨⟨_, rfl, rfl, rfl⟩, updFn_same _ _ _⟩
  · subst hd
    have habs : tf.threshold_pct ≤ |(cur - b) / b| :=
      le_trans (by linarith) (neg_le_abs ((cur - b) / b))
    constructor
    · intro hlt
      have hcool : cooldownActive st (symbol, "DOWN", tf.label) t tf.cooldown_sec = true := by
        simp [cooldownActive, hT, hlt]
      have heval : evalTF min_delta store symbol cur mark t st tf = (st, none) := by
        simp only [evalTF, hb]
        simp [hb0, habs, hprev, hnup, hq1, hq2, hcool]
      rw [heval]
      exact ⟨rfl, rfl, hprev⟩
    · intro hle
      have hcool : cooldownActive st (symbol, "DOWN", tf.label) t tf.cooldown_sec = false := by
        simp only [cooldownActive, hT]
        exact decide_eq_false (not_lt.mpr hle)
      have heval : evalTF min_delta store symbol cur mark t st tf
          = emitAlert st symbol "DOWN" tf b cur ((cur - b) / b) (cur - b) t
              (if 0 < mpb ∧ 0 < mark then some ((mark - mpb) / mpb) else none) := by
        simp only [evalTF, hb]
        simp [hb0, habs, hprev, hnup, hq1, hq2, hcool]
      rw [heval]
      exact ⟨⟨_, rfl, rfl, rfl⟩, updFn_same _ _ _⟩

/-- C2: a candidate outside the percentage threshold from `INSIDE` that
fails the absolute-delta minimum is silently dropped: no alert, and the
(symbol, timeframe) state is not promoted to `OUTSIDE`. -/
theorem evalTF_min_delta_gate (min_delta : ℚ) (store : Store) (symbol : String)
    (cur mark t : ℚ) (st : EvalState) (tf : TFPolicy) (b mpb : ℚ)
    (hb : get_oi_at_lookback store symbol t tf.lookback_sec = some (b, mpb))
    (hb0 : b ≠ 0)
    (hthr : 0 < tf.threshold_pct)
    (hprev : st.alertState (symbol, tf.label) = AlertState.INSIDE)
    (hfail : (tf.threshold_pct ≤ (cur - b) / b ∧ cur - b < min_delta) ∨
             ((cur - b) / b ≤ -tf.threshold_pct ∧ -min_delta < cur - b)) :
    (evalTF min_delta store symbol cur mark t st tf).2 = none ∧
    (evalTF min_delta store symbol cur mark t st tf).1 = st ∧
    (evalTF min_delta store symbol cur mark t st tf).1.alertState (symbol, tf.label)
      = AlertState.INSIDE := by
  rcases hfail with ⟨hq, hlt⟩ | ⟨hq, hgt⟩
  · have habs : tf.threshold_pct ≤ |(cur - b) / b| := le_trans hq (le_abs_self _)
    have h1 : ¬(tf.threshold_pct ≤ (cur - b) / b ∧ min_delta ≤ cur - b) :=
      fun hc => absurd hc.2 (not_le.mpr hlt)
    have h2 : ¬((cur - b) / b ≤ -tf.threshold_pct ∧ cur - b ≤ -min_delta) :=
      fun hc => by linarith [hc.1]
    have heval : evalTF min_delta store symbol cur mark t st tf = (st, none) := by
      simp only [evalTF, hb]
      rw [if_neg hb0, if_pos (And.intro habs hprev), if_neg h1, if_neg h2]
    rw [heval]
    exact ⟨rfl, rfl, hprev⟩
  · have habs : tf.threshold_pct ≤ |(cur - b) / b| :=
      le_trans (by linarith) (neg_le_abs ((cur - b) / b))
    have h1 : ¬(tf.threshold_pct ≤ (cur - b) / b ∧ min_delta ≤ cur - b) :=
      fun hc => by linarith [hc.1]
    have h2 : ¬((cur - b) / b ≤ -tf.threshold_pct ∧ cur - b ≤ -min_delta) :=
      fun hc => by linarith [hc.2]
    have heval : evalTF min_delta store symbol cur mark t st tf = (st, none) := by
      simp only [evalTF, hb]
      rw [if_neg hb0, if_pos (And.intro habs hprev), if_neg h1, if_neg h2]
    rw [heval]
    exact ⟨rfl, rfl, hprev⟩

/-- C3: from state `OUTSIDE`, evaluations that stay outside the
threshold emit nothing and keep the state `OUTSIDE`; the state returns
to `INSIDE` exactly when the evaluation is inside the threshold, or the
baseline is absent or zero. -/
theorem evalTF_outside_latch (min_delta : ℚ) (store : Store) (symbol : String)
    (cur mark t : ℚ) (st : EvalState) (tf : TFPolicy)
    (hprev : st.alertState (symbol, tf.label) = AlertState.OUTSIDE) :
    (∀ b mpb, get_oi_at_lookback store symbol t tf.lookback_sec = some (b, mpb) →
      b ≠ 0 → tf.threshold_pct ≤ |(cur - b) / b| →
      (evalTF min_delta store symbol cur mark t st tf).2 = none ∧
      (evalTF min_delta store symbol cur mark t st tf).1 = st ∧
      (evalTF min_delta store symbol cur mark t st tf).1.alertState (symbol, tf.label)
        = AlertState.OUTSIDE) ∧
    (∀ b mpb, get_oi_at_lookback store symbol t tf.lookback_sec = some (b, mpb) →
      b ≠ 0 → |(cur - b) / b| < tf.threshold_pct →
      (evalTF min_delta store symbol cur mark t st tf).2 = none ∧
      (evalTF min_delta store symbol cur mark t st tf).1.alertState (symbol, tf.label)
        = AlertState.INSIDE) ∧
    (get_oi_at_lookback store symbol t tf.lookback_sec = none →
      (evalTF min_delta store symbol cur mark t st tf).2 = none ∧
      (evalTF min_delta store symbol cur mark t st tf).1.alertState (symbol, tf.label)
        = AlertState.INSIDE) ∧
    (∀ mpb, get_oi_at_lookback store symbol t tf.lookback_sec = some (0, mpb) →
      (evalTF min_delta store symbol cur mark t st tf).2 = none ∧
      (evalTF min_delta store symbol cur mark t st tf).1.alertState (symbol, tf.label)
        = AlertState.INSIDE) := by
  refine ⟨?_, ?_, ?_, ?_⟩
  · intro b mpb hb hb0 habs
    have heval : evalTF min_delta store symbol cur mark t st tf = (st, none) := by
      simp only [evalTF, hb]
      simp [hb0, hprev, habs]
    rw [heval]
    exact ⟨rfl, rfl, hprev⟩
  · intro b mpb hb hb0 hin
    have hnabs : ¬ tf.threshold_pct ≤ |(cur - b) / b| := not_le.mpr hin
    have heval : evalTF min_delta store symbol cur mark t st tf
        = ({ st with alertState := updFn st.alertState (symbol, tf.label) AlertState.INSIDE },
           none) := by
      simp only [evalTF, hb]
      simp [hb0, hnabs]
    rw [heval]
    exact ⟨rfl, updFn_same _ _ _⟩
  · intro hb
    have heval : evalTF min_delta store symbol cur mark t st tf
        = ({ st with alertState := updFn st.alertState (symbol, tf.label) AlertState.INSIDE },
           none) := by
      simp only [evalTF, hb]
    rw [heval]
    exact ⟨rfl, updFn_same _ _ _⟩
  · intro mpb hb
    have heval : evalTF min_delta store symbol cur mark t st tf
        = ({ st with alertState := updFn st.alertState (symbol, tf.label) AlertState.INSIDE },
           none) := by
      simp only [evalTF, hb]
      simp
    rw [heval]
    exact ⟨rfl, updFn_same _ _ _⟩

/-- C7: a zero resolved baseline forces the (symbol, timeframe) state to
`INSIDE`, emits nothing and leaves the cooldown map untouched; and every
alert the evaluator does emit carries a non-zero baseline as the divisor
of its percentage change. -/
theorem evalTF_zero_baseline (min_delta : ℚ) (store : Store) (symbol : String)
    (cur mark t : ℚ) (st : EvalState) (tf : TFPolicy) :
    (∀ mpb, get_oi_at_lookback store symbol t tf.lookback_sec = some (0, mpb) →
      (evalTF min_delta store symbol cur mark t st tf).1.alertState (symbol, tf.label)
        = AlertState.INSIDE ∧
      (evalTF min_delta store symbol cur mark t st tf).2 = none ∧
      (evalTF min_delta store symbol cur mark t st tf).1.lastAlertAt = st.lastAlertAt) ∧
    (∀ a, (evalTF min_delta store symbol cur mark t st tf).2 = some a →
      a.baseline ≠ 0 ∧ a.pct_change = (a.current - a.baseline) / a.baseline) := by
  constructor
  · intro mpb hb
    have heval : evalTF min_delta store symbol cur mark t st tf
        = ({ st with alertState := updFn st.alertState (symbol, tf.label) AlertState.INSIDE },
           none) := by
      simp only [evalTF, hb]
      simp
    rw [heval]
    exact ⟨updFn_same _ _ _, rfl, rfl⟩
  · intro a ha
    rcases hres : get_oi_at_lookback store symbol t tf.lookback_sec with _ | ⟨b, mpb⟩
    · simp [evalTF, hres] at ha
    · simp only [evalTF, hres] at ha
      by_cases h0 : b = 0
      · rw [if_pos h0] at ha
        simp at ha
      · rw [if_neg h0] at ha
        by_cases hout : tf.threshold_pct ≤ |(cur - b) / b| ∧
            st.alertState (symbol, tf.label) = AlertState.INSIDE
        · rw [if_pos hout] at ha
          by_cases hup : tf.threshold_pct ≤ (cur - b) / b ∧ min_delta ≤ cur - b
          · rw [if_pos hup] at ha
            by_cases hcup : cooldownActive st (symbol, "UP", tf.label) t tf.cooldown_sec = true
            · rw [if_pos hcup] at ha
              simp at ha
            · rw [if_neg hcup] at ha
              simp only [emitAlert] at ha
              obtain rfl := (Option.some.inj ha).symm
              exact ⟨h0, rfl⟩
          · rw [if_neg hup] at ha
            by_cases hdn : (cur - b) / b ≤ -tf.threshold_pct ∧ cur - b ≤ -min_delta
            · rw [if_pos hdn] at ha
              by_cases hcdn : cooldownActive st (symbol, "DOWN", tf.label) t tf.cooldown_sec
                  = true
              · rw [if_pos hcdn] at ha
                simp at ha
              · rw [if_neg hcdn] at ha
                simp only [emitAlert] at ha
                obtain rfl := (Option.some.inj ha).symm
                exact ⟨h0, rfl⟩
            · rw [if_neg hdn] at ha
              simp at ha
        · rw [if_neg hout] at ha
          by_cases hnin : ¬ tf.threshold_pct ≤ |(cur - b) / b|
          · rw [if_pos hnin] at ha
            simp at ha
          · rw [if_neg hnin] at ha
            simp at ha

theorem testStore_lookup :
    get_oi_at_lookback testStore "BTCUSDT" 300 300 = some (100000, 1) := by
  have htol : oiTolerance 300 = 30 := by decide
  simp only [get_oi_at_lookback, testStore]
  norm_num [htol, scanStep, List.foldl_cons, List.foldl_nil]

theorem testStoreZero_lookup :
    get_oi_at_lookback testStoreZero "AAAUSDT" 300 300 = some (0, 1) := by
  have htol : oiTolerance 300 = 30 := by decide
  simp only [get_oi_at_lookback, testStoreZero]
  norm_num [htol, scanStep, List.foldl_cons, List.foldl_nil]

/-- Witness for `evalTF_cooldown_gate`: a qualifying +10 % crossing at
t = 300 with a last `UP` alert at t = 0 and a 600 s cooldown is
silently skipped. -/
theorem evalTF_cooldown_gate_witness :
    (evalTF 5000 testStore "BTCUSDT" 110000 1 300 testStateUP testTF).2 = none := by
  exact ((evalTF_cooldown_gate 5000 testStore "BTCUSDT" 110000 1 300 testStateUP testTF
      100000 1 0 "UP" testStore_lookup (by norm_num) rfl (by norm_num [testStateUP, testTF])
      (Or.inl ⟨rfl, by norm_num [testTF], by norm_num⟩)).1 (by norm_num [testTF])).1

/-- Witness for `evalTF_min_delta_gate`: +3.5 % but only 3500 contracts
(< 5000) emits nothing. -/
theorem evalTF_min_delta_gate_witness :
    (evalTF 5000 testStore "BTCUSDT" 103500 1 300 testStateEmpty testTF).2 = none := by
  exact (evalTF_min_delta_gate 5000 testStore "BTCUSDT" 103500 1 300 testStateEmpty testTF
      100000 1 testStore_lookup (by norm_num) (by norm_num [testTF]) rfl
      (Or.inl ⟨by norm_num [testTF], by norm_num⟩)).1

/-- Witness for `evalTF_outside_latch`: an evaluation that stays outside
threshold from state `OUTSIDE` emits nothing. -/
theorem evalTF_outside_latch_witness :
    (evalTF 5000 testStore "BTCUSDT" 110000 1 300 testStateOutside testTF).2 = none := by
  exact ((evalTF_outside_latch 5000 testStore "BTCUSDT" 110000 1 300 testStateOutside testTF
      rfl).1 100000 1 testStore_lookup (by norm_num)
      (by rw [abs_of_nonneg (by norm_num)]; norm_num [testTF])).1

/-- Witness for `get_oi_at_lookback_spec`: a buffer with a sample
exactly at `now - lookback` resolves a baseline. -/
theorem get_oi_at_lookback_spec_witness :
    (get_oi_at_lookback testStore "BTCUSDT" 300 300).isSome := by
  exact (get_oi_at_lookback_spec testStore "BTCUSDT" 300 300).2.2.2.2
    [⟨0, 100000, 1⟩, ⟨150, 100000, 1⟩] rfl (by norm_num)
    ⟨⟨0, 100000, 1⟩, by norm_num, by norm_num⟩

/-- Witness for `evalTF_zero_baseline`: a zero resolved baseline emits
nothing. -/
theorem evalTF_zero_baseline_witness :
    (evalTF 5000 testStoreZero "AAAUSDT" 5 1 300 testStateEmpty testTF).2 = none := by
  exact ((evalTF_zero_baseline 5000 testStoreZero "AAAUSDT" 5 1 300 testStateEmpty
      testTF).1 1 testStoreZero_lookup).2.1

theorem splitOnPipe_no_pipe : ∀ (a : List Char), '|' ∉ a → splitOnPipe a = [a] := by
  intro a
  induction a with
  | nil => intro _; rfl
  | cons c rest ih =>
    intro h
    have hc : ¬ c = '|' := fun hcp => h (hcp ▸ List.mem_cons_self c rest)
    have hr : '|' ∉ rest := fun hm => h (List.mem_cons_of_mem c hm)
    simp only [splitOnPipe, if_neg hc, ih hr]

theorem splitOnPipe_append : ∀ (a rest : List Char), '|' ∉ a →
    splitOnPipe (a ++ '|' :: rest) = a :: splitOnPipe rest := by
  intro a
  induction a with
  | nil =>
    intro rest _
    simp [splitOnPipe]
  | cons c a2 ih =>
    intro rest h
    have hc : ¬ c = '|' := fun hcp => h (hcp ▸ List.mem_cons_self c a2)
    have ha : '|' ∉ a2 := fun hm => h (List.mem_cons_of_mem c hm)
    simp only [List.cons_append, splitOnPipe, if_neg hc]
    rw [show a2.append ('|' :: rest) = a2 ++ '|' :: rest from rfl, ih rest ha]

theorem splitOnPipe_joinCooldownKey (k : CKey) (h : keyNoPipe k) :
    splitOnPipe (joinCooldownKey k) = [k.1, k.2.1, k.2.2] := by
  obtain ⟨h1, h2, h3⟩ := h
  rw [joinCooldownKey, splitOnPipe_append _ _ h1, splitOnPipe_append _ _ h2,
    splitOnPipe_no_pipe _ h3]

/-- C5: saving a cooldown map whose key components contain no `'|'` and
reloading it (a simulated restart at the same time) yields exactly the
entries whose timestamps are within the 3600 s maximum cooldown window;
both operations apply this same pruning. -/
theorem cooldown_state_roundtrip (now : ℚ) (m : List (CKey × ℚ))
    (h : ∀ p ∈ m, keyNoPipe p.1) :
    load_cooldown_state now (Except.ok (save_cooldown_state now m)) =
      m.filter fun p => decide (now - p.2 ≤ 3600) := by
  induction m with
  | nil => rfl
  | cons p m ih =>
    have hp := h p (List.mem_cons_self p m)
    have ihm := ih fun q hq => h q (List.mem_cons_of_mem p hq)
    by_cases hts : now - p.2 ≤ 3600
    · rw [show save_cooldown_state now (p :: m)
            = (joinCooldownKey p.1, p.2) :: save_cooldown_state now m by
          simp only [save_cooldown_state, List.filterMap_cons, if_pos hts]]
      rw [show load_cooldown_state now (Except.ok ((joinCooldownKey p.1, p.2)
              :: save_cooldown_state now m))
            = ((p.1.1, p.1.2.1, p.1.2.2), p.2)
              :: load_cooldown_state now (Except.ok (save_cooldown_state now m)) by
          simp only [load_cooldown_state, List.filterMap_cons, if_neg (not_lt.mpr hts),
            splitOnPipe_joinCooldownKey p.1 hp]]
      rw [ihm, List.filter_cons, if_pos (decide_eq_true hts)]
    · rw [show save_cooldown_state now (p :: m) = save_cooldown_state now m by
          simp only [save_cooldown_state, List.filterMap_cons, if_neg hts]]
      rw [ihm, List.filter_cons, if_neg (by simp [hts])]

/-- Witness for `cooldown_state_roundtrip`: a two-entry map with one
fresh and one expired timestamp reloads to just the fresh entry. -/
theorem cooldown_state_roundtrip_witness :
    load_cooldown_state 10000 (Except.ok (save_cooldown_state 10000
        [((['B'], ['U', 'P'], ['5']), 9000), ((['B'], ['U', 'P'], ['5']), 100)]))
      = [((['B'], ['U', 'P'], ['5']), 9000)] := by
  rw [cooldown_state_roundtrip 10000
    [((['B'], ['U', 'P'], ['5']), 9000), ((['B'], ['U', 'P'], ['5']), 100)]
    (by intro p hp; fin_cases hp <;> exact ⟨by decide, by decide, by decide⟩)]
  norm_num [List.filter_cons]

/-- C8: the cooldown store's failure semantics: a missing, unreadable or
unparseable state file loads as the empty map (cold start) instead of
raising, and loading never fails on any parsed input (the function is
total and yields a value for every file state). -/
theorem load_cooldown_state_never_fails :
    (∀ (now : ℚ) (e : Unit), load_cooldown_state now (Except.error e) = []) ∧
    (∀ (now : ℚ) (file : Except Unit (List (List Char × ℚ))),
      ∃ m, load_cooldown_state now file = m) :=
  ⟨fun _ _ => rfl, fun now file => ⟨load_cooldown_state now file, rfl⟩⟩

theorem initialize_oi_history_preserves_some :
    ∀ (symbols : List String) (store : Store) (s : String) (buf : List Sample),
      store s = some buf → initialize_oi_history symbols store s = some buf := by
  intro symbols
  induction symbols with
  | nil => intro store s buf h; exact h
  | cons x xs ih =>
    intro store s buf h
    simp only [initialize_oi_history, List.foldl_cons]
    rcases hx : store x with _ | bufx
    · by_cases hsx : s = x
      · rw [hsx] at h
        rw [h] at hx
        exact absurd hx (by simp)
      · exact ih (updFn store x (some [])) s buf (by rw [updFn_other store x s _ hsx]; exact h)
    · exact ih store s buf h

/-- C9: `initialize(symbols)` creates an empty buffer for each listed
symbol not already present, leaves the buffer (with its full contents)
of every already-known symbol unchanged, and does not touch buffers of
symbols outside the list. -/
theorem initialize_oi_history_spec (symbols : List String) (store : Store) :
    (∀ s ∈ symbols, store s = none → initialize_oi_history symbols store s = some []) ∧
    (∀ s buf, store s = some buf → initialize_oi_history symbols store s = some buf) ∧
    (∀ s, s ∉ symbols → initialize_oi_history symbols store s = store s) := by
  refine ⟨?_, fun s buf h => initialize_oi_history_preserves_some symbols store s buf h, ?_⟩
  · induction symbols generalizing store with
    | nil => intro s hs; exact absurd hs (by simp)
    | cons x xs ih =>
      intro s hs hnone
      simp only [initialize_oi_history, List.foldl_cons]
      rcases hx : store x with _ | bufx
      · by_cases hsx : s = x
        · subst hsx
          exact initialize_oi_history_preserves_some xs _ s [] (updFn_same store s (some []))
        · rcases List.mem_cons.mp hs with heq | hmem
          · exact absurd heq hsx
          · exact ih (updFn store x (some [])) s hmem
              (by rw [updFn_other store x s _ hsx]; exact hnone)
      · rcases List.mem_cons.mp hs with heq | hmem
        · rw [heq] at hnone
          rw [hnone] at hx
          exact absurd hx (by simp)
        · exact ih store s hmem hnone
  · induction symbols generalizing store with
    | nil => intro s _; rfl
    | cons x xs ih =>
      intro s hs
      have hsx : s ≠ x := fun heq => hs (heq ▸ List.mem_cons_self x xs)
      have hmem : s ∉ xs := fun hm => hs (List.mem_cons_of_mem x hm)
      simp only [initialize_oi_history, List.foldl_cons]
      rcases hx : store x with _ | bufx
      · exact (ih (updFn store x (some [])) s hmem).trans (updFn_other store x s _ hsx)
      · exact ih store s hmem

/-- Witness for `initialize_oi_history_spec`: initialising a fresh store
with one symbol creates its empty buffer. -/
theorem initialize_oi_history_spec_witness :
    initialize_oi_history ["BTCUSDT"] (fun _ => none) "BTCUSDT" = some [] :=
  (initialize_oi_history_spec ["BTCUSDT"] (fun _ => none)).1 "BTCUSDT" (by simp) rfl

theorem append_sample_subset (maxlen : ℕ) (buf : List Sample) (s : Sample) :
    ∀ x ∈ append_sample maxlen buf s, x ∈ buf ++ [s] := by
  intro x hx
  simp only [append_sample] at hx
  split_ifs at hx with h
  · exact List.drop_subset _ _ hx
  · exact hx

/-- C10: a per-symbol fetch result that is absent or has
`openInterest ≤ 0` is discarded before the history append, the alert
evaluation and the batch accumulation; every batch record added in a
cycle has positive open interest; and buffers whose samples all have
positive open interest keep that invariant through the processing
step, so history buffers never contain a zero or negative
open-interest sample. -/
theorem process_fetch_result_spec (min_delta : ℚ) (tfs : List TFPolicy) (maxlen : ℕ)
    (store : Store) (est : EvalState) (batch : List BatchSample)
    (symbol : String) (result : Option (ℚ × ℚ)) (timestamp : ℚ) :
    (result = none →
      process_fetch_result min_delta tfs maxlen store est batch symbol result timestamp
        = ⟨store, est, [], batch⟩) ∧
    (∀ oi mp, result = some (oi, mp) → oi ≤ 0 →
      process_fetch_result min_delta tfs maxlen store est batch symbol result timestamp
        = ⟨store, est, [], batch⟩) ∧
    (∀ bs ∈ (process_fetch_result min_delta tfs maxlen store est batch symbol result
        timestamp).batch, bs ∈ batch ∨ 0 < bs.openInterest) ∧
    ((∀ sym buf, store sym = some buf → ∀ smp ∈ buf, 0 < smp.oi) →
      ∀ sym buf,
        (process_fetch_result min_delta tfs maxlen store est batch symbol result
          timestamp).store sym = some buf → ∀ smp ∈ buf, 0 < smp.oi) := by
  refine ⟨?_, ?_, ?_, ?_⟩
  · intro h
    rw [h]
    rfl
  · intro oi mp h hle
    rw [h]
    simp only [process_fetch_result]
    rw [if_pos hle]
  · rcases result with _ | ⟨oi, mp⟩
    · intro bs hbs
      exact Or.inl hbs
    · by_cases hle : oi ≤ 0
      · intro bs hbs
        have heq : process_fetch_result min_delta tfs maxlen store est batch symbol
            (some (oi, mp)) timestamp = ⟨store, est, [], batch⟩ := by
          simp only [process_fetch_result]
          rw [if_pos hle]
        rw [heq] at hbs
        exact Or.inl hbs
      · rcases hbufS : store symbol with _ | buf
        · intro bs hbs
          have heq : process_fetch_result min_delta tfs maxlen store est batch symbol
              (some (oi, mp)) timestamp = ⟨store, est, [], batch⟩ := by
            simp only [process_fetch_result]
            rw [if_neg hle, hbufS]
          rw [heq] at hbs
          exact Or.inl hbs
        · intro bs hbs
          have heq : (process_fetch_result min_delta tfs maxlen store est batch symbol
              (some (oi, mp)) timestamp).batch
              = batch ++ [if 0 < mp then ⟨symbol, oi, oi * mp, mp⟩
                  else (⟨symbol, oi, 0, 0⟩ : BatchSample)] := by
            simp only [process_fetch_result]
            rw [if_neg hle, hbufS]
          rw [heq] at hbs
          rcases List.mem_append.mp hbs with h1 | h2
          · exact Or.inl h1
          · right
            rw [List.mem_singleton.mp h2]
            by_cases hmp : 0 < mp
            · rw [if_pos hmp]
              exact not_le.mp hle
            · rw [if_neg hmp]
              exact not_le.mp hle
  · intro hpos sym buf2 hbuf2 smp hsmp
    rcases result with _ | ⟨oi, mp⟩
    · exact hpos sym buf2 hbuf2 smp hsmp
    · by_cases hle : oi ≤ 0
      · have heq : (process_fetch_result min_delta tfs maxlen store est batch symbol
            (some (oi, mp)) timestamp).store = store := by
          simp only [process_fetch_result]
          rw [if_pos hle]
        rw [heq] at hbuf2
        exact hpos sym buf2 hbuf2 smp hsmp
      · rcases hbufS : store symbol with _ | buf
        · have heq : (process_fetch_result min_delta tfs maxlen store est batch symbol
              (some (oi, mp)) timestamp).store = store := by
            simp only [process_fetch_result]
            rw [if_neg hle, hbufS]
          rw [heq] at hbuf2
          exact hpos sym buf2 hbuf2 smp hsmp
        · have heq : (process_fetch_result min_delta tfs maxlen store est batch symbol
              (some (oi, mp)) timestamp).store
              = updFn store symbol
                  (some (append_sample maxlen buf ⟨timestamp, oi, mp⟩)) := by
            simp only [process_fetch_result]
            rw [if_neg hle, hbufS]
          rw [heq] at hbuf2
          by_cases hsym : sym = symbol
          · rw [hsym, updFn_same] at hbuf2
            obtain rfl := (Option.some.inj hbuf2).symm
            rcases List.mem_append.mp (append_sample_subset _ _ _ smp hsmp) with h1 | h2
            · exact hpos symbol buf hbufS smp h1
            · rw [List.mem_singleton.mp h2]
              exact not_le.mp hle
          · rw [updFn_other _ _ _ _ hsym] at hbuf2
            exact hpos sym buf2 hbuf2 smp hsmp

/-- Witness for `process_fetch_result_spec`: an absent fetch result
changes nothing. -/
theorem process_fetch_result_spec_witness :
    process_fetch_result 5000 [testTF] OI_HISTORY_MAXLEN testStore testStateEmpty []
        "BTCUSDT" none 300
      = ⟨testStore, testStateEmpty, [], []⟩ :=
  (process_fetch_result_spec 5000 [testTF] OI_HISTORY_MAXLEN testStore testStateEmpty []
    "BTCUSDT" none 300).1 rfl
